import Mathlib

set_option maxHeartbeats 1000000

/-!  Shallow embedding of the TableFu table library (table_fu/__init__.py):
the TableFu/Row/Datum data model and the operations sort, filter, facet_by,
transpose, transform, values, total, items/dict and delete_row, together
with a small reference-heap model for the in-place construction and
mutation behaviour.  Python exceptions are modelled by `PyErr`, so every
fallible operation returns `Except PyErr`; Python float arithmetic is
modelled by exact rationals. -/

/-- A Python exception, carrying its class and message. -/
inductive PyErr where
  | keyError (msg : String)
  | valueError (msg : String)
  | typeError (msg : String)
  | indexError (msg : String)
  | attributeError (msg : String)
  deriving DecidableEq

/-- A Datum (`Datum.__init__`): one cell value bound to its row/column
context.  The table back-reference is used by the source only for lazy
formatting and style resolution, which no theorem below inspects, so it is
not carried here. -/
structure Datum where
  value : String
  row_num : Nat
  column_name : String
  deriving DecidableEq

/-- A dynamically typed Python value, as far as the claims observe one:
raw strings, Datum objects, and None. -/
inductive PyVal where
  | str (s : String)
  | datum (d : Datum)
  | none
  deriving DecidableEq

/-- One element of the Python list `TableFu.table`.  Normally a plain list
of cell strings; `TableFu.filter` instead stores the `Row` view objects
produced by the builtin `filter`, so an entry can also be a Row object
(holding the cell list copied at `Row.__init__`).  The Row object's
back-reference to its originating table is not carried: every theorem
below that re-reads rows does so on tables whose entries are all raw
lists. -/
inductive Entry where
  | raw (cells : List String)
  | rowObj (cells : List String)
  deriving DecidableEq

/-- The cell list stored in a table entry. -/
def Entry.cells : Entry → List String
  | .raw c => c
  | .rowObj c => c

/-- Python `row[index]` on an element of `TableFu.table`: list indexing on
a raw row (IndexError when out of range), or `Row.__getitem__` with an
integer argument on a stored Row object, where the integer is never among
the column names, hence the KeyError about the integer. -/
def Entry.index : Entry → Nat → Except PyErr String
  | .raw c, i =>
      if h : i < c.length then .ok (c.get ⟨i, h⟩)
      else .error (.indexError "list index out of range")
  | .rowObj _, i =>
      .error (.keyError (toString i ++ " isn\x27t a column in this table"))

/-- Python `row[index] = v` on a table entry (reached only for raw rows in
`transform`, after `row[index]` already succeeded). -/
def Entry.setIndex : Entry → Nat → String → Entry
  | .raw c, i, v => .raw (c.set i v)
  | .rowObj c, _, _ => .rowObj c

/-- Is the entry a raw cell list of the given width? -/
def Entry.isRawOfLength (e : Entry) (n : Nat) : Bool :=
  match e with
  | .raw c => c.length == n
  | .rowObj _ => false

/-- A per-column formatting rule ({filter, args, options} in the source).
Its content is only carried around, never consulted by the claims. -/
structure FormatSpec where
  filter : Option String
  args : List String
  deriving DecidableEq

/-- The keyword-options dictionary handed to `TableFu.__init__` and kept
as `self.options`.  Absent dictionary keys are `none` or `[]`. -/
structure Options where
  columns : Option (List String)
  formatting : List (String × FormatSpec)
  style : List (String × String)
  sorted_by : Option (String × Bool)
  deriving DecidableEq

/-- The TableFu state: the attributes set in `TableFu.__init__`.  The
`totals` cache is never read anywhere in the source and is omitted. -/
structure TableFu where
  table : List Entry
  default_columns : List String
  _columns : List String
  deleted_rows : List Entry
  faceted_on : Option String
  formatting : List (String × FormatSpec)
  style : List (String × String)
  options : Options
  deriving DecidableEq

/-- The message of every unknown-column error raised in the source. -/
def unknownColMsg (column_name : String) : String :=
  column_name ++ " isn\x27t a column in this table"

/-- The `TableFu.columns` property getter: the `_columns` override when it
is a non-empty (truthy) list, else the default columns. -/
def TableFu.columns (t : TableFu) : List String :=
  if t._columns.isEmpty then t.default_columns else t._columns

/-- The column index used for every name-based lookup:
`self.default_columns.index(column_name)`. -/
def colIndex (t : TableFu) (column_name : String) : Nat :=
  t.default_columns.indexOf column_name

/-- The spec invariant on tables (§3): every entry of the body is a plain
list of cells whose length is the number of default columns. -/
def TableFu.wellFormed (t : TableFu) : Prop :=
  ∀ e ∈ t.table, e.isRawOfLength t.default_columns.length = true

instance (t : TableFu) : Decidable t.wellFormed := by
  unfold TableFu.wellFormed
  infer_instance

/-- A Row view (`Row.__init__`): the copied cell list and the row number.
The table back-reference is passed explicitly to the functions below. -/
structure Row where
  cells : List String
  row_num : Nat
  deriving DecidableEq

/-- `Row.get(column_name, default)`: the Datum for a known column, the
caller-supplied default otherwise.  The indexing `self.cells[index]`
raises IndexError when the row is shorter than the column index. -/
def Row.get (t : TableFu) (r : Row) (column_name : String) (default : PyVal) :
    Except PyErr PyVal :=
  if column_name ∈ t.default_columns then
    if h : colIndex t column_name < r.cells.length then
      .ok (.datum ⟨r.cells.get ⟨colIndex t column_name, h⟩, r.row_num, column_name⟩)
    else .error (.indexError "list index out of range")
  else .ok default

/-- `Row.__getitem__`: `self.get(column_name)` with default None, raising
KeyError when the result is None, i.e. when the column is unknown. -/
def Row.getitem (t : TableFu) (r : Row) (column_name : String) :
    Except PyErr Datum :=
  match Row.get t r column_name PyVal.none with
  | .error e => .error e
  | .ok (.datum d) => .ok d
  | .ok _ => .error (.keyError (unknownColMsg column_name))

/-- Exception-propagating list map: the Python pattern of a list
comprehension or loop whose body may raise (evaluated left to right,
stopping at the first exception). -/
def mapE (f : α → Except PyErr β) : List α → Except PyErr (List β)
  | [] => .ok []
  | a :: l =>
    match f a with
    | .error e => .error e
    | .ok b =>
      match mapE f l with
      | .error e => .error e
      | .ok bs => .ok (b :: bs)

/-- Exception-propagating left fold: a Python loop threading an
accumulator whose body may raise. -/
def foldE (f : β → α → Except PyErr β) (b0 : β) : List α → Except PyErr β
  | [] => .ok b0
  | a :: l =>
    match f b0 a with
    | .error e => .error e
    | .ok b => foldE f b l

/-- `Row.keys()`: the active columns of the owning table. -/
def Row.keys (t : TableFu) : List String := t.columns

/-- The `Row.data` property: `[self[col] for col in self.table.columns]`. -/
def Row.data (t : TableFu) (r : Row) : Except PyErr (List Datum) :=
  mapE (fun col => Row.getitem t r col) (Row.keys t)

/-- `Row.values()`: `[d.value for d in self.data]` — the raw strings. -/
def Row.values (t : TableFu) (r : Row) : Except PyErr (List String) :=
  match Row.data t r with
  | .error e => .error e
  | .ok ds => .ok (ds.map Datum.value)

/-- `Row.items()`: `zip(self.keys(), self.values())`.  Note the second
components are the raw string values, not the Datum objects. -/
def Row.items (t : TableFu) (r : Row) : Except PyErr (List (String × PyVal)) :=
  match Row.values t r with
  | .error e => .error e
  | .ok vs => .ok ((Row.keys t).zip (vs.map PyVal.str))

/-- Modelled from the spec (§4.9): the mapping the spec claims `items()`
produces, from each active column name to that cell's resolved Datum
object.  Stated only to be compared against `Row.items`. -/
def Row.itemsSpec (t : TableFu) (r : Row) : Except PyErr (List (String × PyVal)) :=
  match Row.data t r with
  | .error e => .error e
  | .ok ds => .ok ((Row.keys t).zip (ds.map PyVal.datum))

/-- Python attribute access `x.value`: a Datum exposes its raw string,
while plain strings and None have no such attribute. -/
def PyVal.attrValue : PyVal → Except PyErr String
  | .datum d => .ok d.value
  | .str _ => .error (.attributeError "str object has no attribute value")
  | .none => .error (.attributeError "NoneType object has no attribute value")

/-- `TableFu.dict()`: one `items()` mapping per row, in row order (Python
materialises each as a dict; the association list keeps the column
order). -/
def TableFu.dict (t : TableFu) : Except PyErr (List (List (String × PyVal))) :=
  mapE (fun p => Row.items t ⟨p.2.cells, p.1⟩) t.table.enum

/-- Key comparison for the decorate-sort-undecorate modelling of the
Python `list.sort(key=..., reverse=False)` call. -/
def keyLe {α : Type} (a b : α × String) : Prop := a.2 ≤ b.2

/-- Key comparison for `reverse=True`.  CPython implements `reverse` so
that elements with equal keys keep their original relative order, which
is exactly a stable sort under the flipped comparison. -/
def keyGe {α : Type} (a b : α × String) : Prop := b.2 ≤ a.2

instance {α : Type} : DecidableRel (@keyLe α) :=
  fun a b => inferInstanceAs (Decidable (a.2 ≤ b.2))

instance {α : Type} : DecidableRel (@keyGe α) :=
  fun a b => inferInstanceAs (Decidable (b.2 ≤ a.2))

instance {α : Type} : IsTrans (α × String) keyLe :=
  ⟨fun _ _ _ h₁ h₂ => le_trans h₁ h₂⟩

instance {α : Type} : IsTotal (α × String) keyLe :=
  ⟨fun a b => le_total a.2 b.2⟩

instance {α : Type} : IsTrans (α × String) keyGe :=
  ⟨fun _ _ _ h₁ h₂ => le_trans h₂ h₁⟩

instance {α : Type} : IsTotal (α × String) keyGe :=
  ⟨fun a b => le_total b.2 a.2⟩

/-- The decorate-sort-undecorate at the heart of `list.sort(key=...,
reverse=...)`: a stable sort of the decorated list on the key.  CPython's
timsort is stable and a stable sort by a total preorder has a unique
result, so the insertion sort here is extensionally the same function;
`reverse=True` flips the comparison while still keeping equal keys in
their original relative order. -/
def pySort {α : Type} (keyed : List (α × String)) (reverse : Bool) : List α :=
  if reverse then (List.insertionSort keyGe keyed).map Prod.fst
  else (List.insertionSort keyLe keyed).map Prod.fst

/-- `TableFu.sort(column_name=None, reverse=False)`.  A falsy
`column_name` (None or the empty string) falls back to the previously
recorded `sorted_by` column when one exists; an unresolved or unknown
name raises ValueError before any mutation.  The body list is sorted in
place by the key `row[index]` — a stable sort on the raw strings, here
the decorated insertion sort (CPython's timsort is stable, and a stable
sort by a total preorder has a unique result) — and `sorted_by` is
re-recorded in the options. -/
def TableFu.sort (t : TableFu) (column_name : Option String) (reverse : Bool) :
    Except PyErr TableFu :=
  let cn : Option String :=
    if decide (column_name.getD "" = "") && t.options.sorted_by.isSome then
      t.options.sorted_by.map Prod.fst
    else column_name
  match cn with
  | Option.none => .error (.valueError (unknownColMsg "None"))
  | some c =>
    if c ∈ t.default_columns then
      match mapE (fun e =>
          match e.index (colIndex t c) with
          | .error err => .error err
          | .ok k => .ok (e, k)) t.table with
      | .error err => .error err
      | .ok keyed =>
        .ok { t with table := pySort keyed reverse,
                     options := { t.options with sorted_by := some (c, reverse) } }
    else .error (.valueError (unknownColMsg c))

/-- `TableFu.transform(column_name, func)`: an unknown column raises
ValueError; otherwise each row has `row[index]` replaced in place by
`func(row[index])`.  (The `callable(func)` TypeError branch cannot fire
here because `func` is a genuine function.) -/
def TableFu.transform (t : TableFu) (column_name : String) (func : String → String) :
    Except PyErr TableFu :=
  if column_name ∈ t.default_columns then
    match mapE (fun row =>
        match row.index (colIndex t column_name) with
        | .error err => .error err
        | .ok val => .ok (row.setIndex (colIndex t column_name) (func val))) t.table with
    | .error err => .error err
    | .ok table => .ok { t with table := table }
  else .error (.valueError (unknownColMsg column_name))

/-- `TableFu.values(column_name)` on the `unique=False` path used by the
claims (`unique=True` wraps the same list in a Python set, which no claim
observes). -/
def TableFu.values (t : TableFu) (column_name : String) :
    Except PyErr (List String) :=
  if column_name ∈ t.default_columns then
    mapE (fun row => row.index (colIndex t column_name)) t.table
  else .error (.valueError (unknownColMsg column_name))

/-- The numeric value of a digit list, most significant first. -/
def digitsToNat (cs : List Char) : Nat :=
  cs.foldl (fun n c => 10 * n + (c.toNat - Char.toNat '0')) 0

/-- Python `float(v)` on the decimal string literals this library deals
in: optional sign, integer digits, optional dot and fraction digits, with
at least one digit overall.  Exponents, inf/nan and surrounding
whitespace fall outside the fragment the repository exercises, and IEEE
rounding is abstracted to exact rationals. -/
def pyFloat (s : String) : Option ℚ :=
  let signed : ℚ × List Char :=
    match s.data with
    | '-' :: r => (-1, r)
    | '+' :: r => (1, r)
    | r => (1, r)
  let ip := signed.2.takeWhile Char.isDigit
  let rest := signed.2.dropWhile Char.isDigit
  match rest with
  | [] =>
      if ip.isEmpty then Option.none
      else some (signed.1 * (digitsToNat ip : ℚ))
  | '.' :: fp =>
      if fp.all Char.isDigit && !(ip.isEmpty && fp.isEmpty) then
        some (signed.1 * ((digitsToNat ip : ℚ) +
          (digitsToNat fp : ℚ) / (10 : ℚ) ^ fp.length))
      else Option.none
  | _ => Option.none

/-- `TableFu.total(column_name)`: an unknown column raises ValueError
with the unknown-column message; otherwise `sum(float(v) for v in
values)`.  The generator makes the `float` calls run lazily inside `sum`,
outside the `try` block, so the except branch with the custom "contains
non-numeric values" message is unreachable: a bad value raises the
`float` conversion ValueError itself, at the first offending value. -/
def TableFu.total (t : TableFu) (column_name : String) : Except PyErr ℚ :=
  if column_name ∈ t.default_columns then
    match t.values column_name with
    | .error err => .error err
    | .ok vs =>
      match vs.find? (fun v => (pyFloat v).isNone) with
      | some v => .error (.valueError ("could not convert string to float: " ++ v))
      | Option.none => .ok (vs.filterMap pyFloat).sum
  else .error (.valueError (unknownColMsg column_name))

/-- `TableFu.__init__` on an in-memory 2D list plus keyword options: pops
the header off as `default_columns` (IndexError on an empty list), seeds
the attributes from the options, and immediately re-sorts when
`sorted_by` is present.  In every use below the header element is a raw
list, so taking its `cells` is exact. -/
def mkTableFu (table : List Entry) (options : Options) : Except PyErr TableFu :=
  match table with
  | [] => .error (.indexError "pop from empty list")
  | header :: body =>
    let t : TableFu :=
      { table := body
        default_columns := header.cells
        _columns := options.columns.getD []
        deleted_rows := []
        faceted_on := Option.none
        formatting := options.formatting
        style := options.style
        options := options }
    match options.sorted_by with
    | Option.none => .ok t
    | some (c, rev) => t.sort (some c) rev

/-- `TableFu.filter(func)` in predicate mode: the builtin `filter` keeps
the Row view objects whose predicate is true, the header list is pushed
back on the front, and the result is handed to the constructor together
with the parent options — so a recorded `sorted_by` makes the constructor
re-sort a list of Row objects by an integer index.  The keyword-equality
mode chains this predicate mode one column at a time and is not
separately modelled. -/
def TableFu.filter (t : TableFu) (func : Row → Bool) : Except PyErr TableFu :=
  let kept := t.table.enum.filter (fun p => func ⟨p.2.cells, p.1⟩)
  mkTableFu (Entry.raw t.default_columns :: kept.map (fun p => Entry.rowObj p.2.cells))
    t.options

/-- One step of building `faceted_spreadsheets` in `facet_by`: append the
row cells under the key, in dictionary insertion order. -/
def addFacetRow (groups : List (String × List (List String))) (k : String)
    (cells : List String) : List (String × List (List String)) :=
  if groups.any (fun g => g.1 == k) then
    groups.map (fun g => if g.1 == k then (g.1, g.2 ++ [cells]) else g)
  else groups ++ [(k, [cells])]

/-- Key comparison on the first component, for sorting the facet groups. -/
def fstLe {β : Type} (a b : String × β) : Prop := a.1 ≤ b.1

instance {β : Type} : DecidableRel (@fstLe β) :=
  fun a b => inferInstanceAs (Decidable (a.1 ≤ b.1))

instance {β : Type} : IsTrans (String × β) fstLe :=
  ⟨fun _ _ _ h₁ h₂ => le_trans h₁ h₂⟩

instance {β : Type} : IsTotal (String × β) fstLe :=
  ⟨fun a b => le_total a.1 b.1⟩

/-- `TableFu.facet_by(column)`: every row participates, because `if
row[column]` tests the truthiness of a Datum object, and Datum defines
neither `__nonzero__` nor `__len__`, so even an empty cell is truthy; an
unknown column raises KeyError at the first row.  Rows are grouped by the
exact cell value; one fresh table is built per value (the constructor
receives no options, so `_columns` and `style` stay empty), with the
parent formatting and options assigned afterwards and the grouping value
recorded in `faceted_on`; finally the tables are sorted by ascending
facet value (stable, and the dict keys are distinct, so the dictionary
iteration order does not matter; here the groups are sorted before the
tables are built, which yields the same list). -/
def TableFu.facet_by (t : TableFu) (column : String) :
    Except PyErr (List TableFu) :=
  match foldE (fun groups p =>
      match Row.getitem t ⟨p.2.cells, p.1⟩ column with
      | .error e => .error e
      | .ok d => .ok (addFacetRow groups d.value p.2.cells)) [] t.table.enum with
  | .error err => .error err
  | .ok groups =>
    .ok ((List.insertionSort fstLe groups).map (fun g =>
      { table := g.2.map Entry.raw
        default_columns := t.default_columns
        _columns := []
        deleted_rows := []
        faceted_on := some g.1
        formatting := t.formatting
        style := []
        options := t.options }))

/-- The local `table` list built by `TableFu.transpose()`: the header
consed onto a shallow copy of the body (rows taken as raw cell lists, as
in every well-formed table). -/
def TableFu.grid (t : TableFu) : List (List String) :=
  t.default_columns :: t.table.map Entry.cells

/-- `TableFu.transpose()`: rebuilds `result[i][j] = grid[j][i]` for `i`
below the length of the first grid row, handing the result to the
constructor.  The source computes `options = self.options.copy();
options.pop("columns", None)` but then passes the unpopped `self.options`,
so the popped copy is dead and the columns override survives into the new
table. -/
def TableFu.transpose (t : TableFu) : Except PyErr TableFu :=
  match mapE (fun i => mapE (fun row =>
      if h : i < row.length then Except.ok (row.get ⟨i, h⟩)
      else Except.error (PyErr.indexError "list index out of range")) t.grid)
      (List.range (t.grid.headD []).length) with
  | .error err => .error err
  | .ok result => mkTableFu (result.map Entry.raw) t.options

/-- Python attribute lookup `.rows` on the plain list `self.table`: list
objects define no such attribute, so it always raises AttributeError. -/
def listAttrRows (_l : List Entry) : Except PyErr (List Entry) :=
  .error (.attributeError "list object has no attribute rows")

/-- `TableFu.delete_row(row_num)`: evaluates `self.table.rows.pop(row_num)`.
The attribute access raises before the pop or the `deleted_rows.append`
can run, so the table state is returned unchanged alongside the error.
The success branch transcribes what the pop-and-append would do, but it
is unreachable. -/
def TableFu.delete_row (t : TableFu) (row_num : Nat) :
    Except PyErr Unit × TableFu :=
  match listAttrRows t.table with
  | .error e => (.error e, t)
  | .ok rows =>
      (.ok (), { t with
                   table := rows.eraseIdx row_num
                   deleted_rows := t.deleted_rows ++ (rows.drop row_num).take 1 })

/-! ### Reference-heap model for the aliasing behaviour of construction
and in-place mutation (claim about `TableFu.__init__` / `add_rows`).
A heap maps a Python list object identity to its current contents; the
caller and the table hold the same identity. -/

/-- The heap of Python list objects holding rows, addressed by object
identity. -/
def Heap : Type := Nat → List (List String)

/-- `TableFu.__init__` handed the caller's list object: `self.table =
table` keeps the caller's reference, and `self.table.pop(0)` removes the
header from that shared list in place.  The constructed table is the kept
reference paired with the popped header (`default_columns`). -/
def initTableFuRef (h : Heap) (r : Nat) :
    Except PyErr ((Nat × List String) × Heap) :=
  match h r with
  | [] => .error (.indexError "pop from empty list")
  | header :: body => .ok ((r, header), fun n => if n = r then body else h n)

/-- `TableFu.add_rows(*rows)`: appends to the shared list in place. -/
def addRowsRef (h : Heap) (tr : Nat × List String) (rows : List (List String)) :
    Heap :=
  fun n => if n = tr.1 then h n ++ rows else h n

/-- Decorating plain cell rows with the sort key `row[index]`. -/
def keyCells (rows : List (List String)) (i : Nat) :
    Except PyErr (List (List String × String)) :=
  mapE (fun row => if h : i < row.length then .ok (row, row.get ⟨i, h⟩)
    else .error (.indexError "list index out of range")) rows

/-- `TableFu.sort` acting through the heap on the shared list (the
`sorted_by` options bookkeeping is as in `TableFu.sort` and does not
touch the list). -/
def sortRef (h : Heap) (tr : Nat × List String) (column_name : String)
    (reverse : Bool) : Except PyErr Heap :=
  if column_name ∈ tr.2 then
    match keyCells (h tr.1) (tr.2.indexOf column_name) with
    | .error e => .error e
    | .ok keyed =>
      .ok (fun n => if n = tr.1 then pySort keyed reverse else h n)
  else .error (.valueError (unknownColMsg column_name))

/-- One row of `TableFu.transform` at the cell level. -/
def transformCell (i : Nat) (func : String → String) (row : List String) :
    Except PyErr (List String) :=
  if h : i < row.length then .ok (row.set i (func (row.get ⟨i, h⟩)))
  else .error (.indexError "list index out of range")

/-- `TableFu.transform` acting through the heap on the shared list. -/
def transformRef (h : Heap) (tr : Nat × List String) (column_name : String)
    (func : String → String) : Except PyErr Heap :=
  if column_name ∈ tr.2 then
    match mapE (transformCell (tr.2.indexOf column_name) func) (h tr.1) with
    | .error e => .error e
    | .ok rows => .ok (fun n => if n = tr.1 then rows else h n)
  else .error (.valueError (unknownColMsg column_name))

/-! ### Basic computation lemmas for the embedding -/

/-- The raw string key of a table entry at a column index: the total
version used in theorem statements.  On rows that are in range it agrees
with `Entry.index`. -/
def keyD (e : Entry) (i : Nat) : String := e.cells.getD i ""

theorem isRawOfLength_elim {e : Entry} {n : Nat}
    (h : e.isRawOfLength n = true) : ∃ c, e = Entry.raw c ∧ c.length = n := by
  cases e with
  | raw c => exact ⟨c, rfl, by simpa [Entry.isRawOfLength] using h⟩
  | rowObj c => simp [Entry.isRawOfLength] at h

theorem Entry.index_eq_keyD {e : Entry} {i n : Nat}
    (he : e.isRawOfLength n = true) (hi : i < n) :
    e.index i = .ok (keyD e i) := by
  obtain ⟨c, rfl, hc⟩ := isRawOfLength_elim he
  have hi' : i < c.length := by omega
  simp [Entry.index, dif_pos hi', keyD, Entry.cells,
    List.getD_eq_getElem?_getD, List.getElem?_eq_getElem hi']

theorem mapE_ok {α β : Type} {f : α → Except PyErr β} {g : α → β} :
    ∀ {l : List α}, (∀ a ∈ l, f a = .ok (g a)) → mapE f l = .ok (l.map g) := by
  intro l
  induction l with
  | nil => intro _; rfl
  | cons a l ih =>
      intro h
      have ha := h a (List.mem_cons_self a l)
      have hl := ih (fun x hx => h x (List.mem_cons_of_mem _ hx))
      simp [mapE, ha, hl]

theorem foldE_ok {α β : Type} {f : β → α → Except PyErr β} {g : β → α → β} :
    ∀ {l : List α} {b0 : β}, (∀ a ∈ l, ∀ b, f b a = .ok (g b a)) →
      foldE f b0 l = .ok (l.foldl g b0) := by
  intro l
  induction l with
  | nil => intro _ _; rfl
  | cons a l ih =>
      intro b0 h
      have ha := h a (List.mem_cons_self a l) b0
      have hl := @ih (g b0 a) (fun x hx => h x (List.mem_cons_of_mem _ hx))
      simp [foldE, ha, hl]

/-! ### Claim C10 -/

/-- Claim C10: for every table and index, `delete_row` raises
AttributeError — the plain list `self.table` has no `rows` attribute — so
it never removes a row, never appends to `deleted_rows`, and the table
state is unchanged by the call. -/
theorem delete_row_always_attribute_error (t : TableFu) (row_num : Nat) :
    (t.delete_row row_num).1 =
      .error (.attributeError "list object has no attribute rows") ∧
    (t.delete_row row_num).2 = t :=
  ⟨rfl, rfl⟩

/-! ### Claim C7 -/

/-- A table with an explicit columns override plus formatting and style,
exercising the configuration handling of `transpose`. -/
def exT7 : TableFu :=
  { table := [Entry.raw ["1", "2"]]
    default_columns := ["A", "B"]
    _columns := ["B"]
    deleted_rows := []
    faceted_on := Option.none
    formatting := [("A", ⟨some "intcomma", []⟩)]
    style := [("A", "text-align:left;")]
    options :=
      { columns := some ["B"]
        formatting := [("A", ⟨some "intcomma", []⟩)]
        style := [("A", "text-align:left;")]
        sorted_by := Option.none } }

/-- Claim C7 (code bug in the source): `transpose` does not drop the
explicit columns override — the popped copy of the options dict is
computed and then discarded, and the original options are passed — so the
transposed table still carries `columns = ["B"]` both in its options and
as its active `_columns`, while formatting and style are carried over
unchanged. -/
theorem transpose_keeps_columns_override :
    exT7.transpose.map
        (fun t => (t.options.columns, t._columns, t.formatting, t.style)) =
      .ok (some ["B"], ["B"], [("A", ⟨some "intcomma", []⟩)],
        [("A", "text-align:left;")]) := by
  rfl

/-! ### Claim C9 -/

/-- Claim C9: constructing a TableFu from an in-memory 2D list keeps the
caller's list by reference and pops the header in place — afterwards the
caller's list has lost its first element — and later in-place mutations
(`add_rows`, `sort`, `transform`) are visible through the caller's
reference. -/
theorem init_pops_header_in_place (h : Heap) (r : Nat) (cols : List String)
    (body : List (List String)) (hr : h r = cols :: body) :
    ∃ h₁ : Heap, initTableFuRef h r = .ok ((r, cols), h₁) ∧
      h₁ r = body ∧
      (∀ rows, addRowsRef h₁ (r, cols) rows r = body ++ rows) ∧
      (∀ c rev h₂, sortRef h₁ (r, cols) c rev = .ok h₂ →
        ∃ keyed, keyCells body (cols.indexOf c) = .ok keyed ∧
          h₂ r = pySort keyed rev) ∧
      (∀ c f h₂, transformRef h₁ (r, cols) c f = .ok h₂ →
        ∃ rows, mapE (transformCell (cols.indexOf c) f) body = .ok rows ∧
          h₂ r = rows) := by
  refine ⟨fun n => if n = r then body else h n, ?_, by simp, ?_, ?_, ?_⟩
  · unfold initTableFuRef
    rw [hr]
  · intro rows
    simp [addRowsRef]
  · intro c rev h₂ hs
    unfold sortRef at hs
    by_cases hc : c ∈ cols
    · rw [if_pos hc] at hs
      have hb : (fun n => if n = r then body else h n) (r, cols).1 = body := by simp
      rw [hb] at hs
      cases hk : keyCells body (cols.indexOf c) with
      | error e => rw [hk] at hs; cases hs
      | ok keyed =>
          rw [hk] at hs
          refine ⟨keyed, rfl, ?_⟩
          have h3 := (Except.ok.injEq _ _).mp hs.symm
          rw [h3]
          simp
    · rw [if_neg hc] at hs; cases hs
  · intro c f h₂ hs
    unfold transformRef at hs
    by_cases hc : c ∈ cols
    · rw [if_pos hc] at hs
      have hb : (fun n => if n = r then body else h n) (r, cols).1 = body := by simp
      rw [hb] at hs
      cases hk : mapE (transformCell (cols.indexOf c) f) body with
      | error e => rw [hk] at hs; cases hs
      | ok rows =>
          rw [hk] at hs
          refine ⟨rows, rfl, ?_⟩
          have h3 := (Except.ok.injEq _ _).mp hs.symm
          rw [h3]
          simp
    · rw [if_neg hc] at hs; cases hs

/-- A concrete heap with the caller's list at reference 0. -/
def exHeap9 : Heap := fun n => if n = 0 then [["A"], ["2"], ["1"]] else []

theorem init_pops_header_in_place_witness :
    exHeap9 0 = ["A"] :: [["2"], ["1"]] ∧
    (∃ h₁ : Heap, initTableFuRef exHeap9 0 = .ok ((0, ["A"]), h₁) ∧
      h₁ 0 = [["2"], ["1"]] ∧
      (∀ rows, addRowsRef h₁ (0, ["A"]) rows 0 = [["2"], ["1"]] ++ rows) ∧
      (∀ c rev h₂, sortRef h₁ (0, ["A"]) c rev = .ok h₂ →
        ∃ keyed, keyCells [["2"], ["1"]] (["A"].indexOf c) = .ok keyed ∧
          h₂ 0 = pySort keyed rev) ∧
      (∀ c f h₂, transformRef h₁ (0, ["A"]) c f = .ok h₂ →
        ∃ rows, mapE (transformCell (["A"].indexOf c) f) [["2"], ["1"]] = .ok rows ∧
          h₂ 0 = rows)) :=
  ⟨rfl, init_pops_header_in_place exHeap9 0 ["A"] [["2"], ["1"]] rfl⟩

deriving instance DecidableEq for Except

/-! ### Claim C2 -/

theorem zip_map_self {α β : Type} (f : α → β) :
    ∀ l : List α, l.zip (l.map f) = l.map (fun a => (a, f a))
  | [] => rfl
  | a :: l => by simp [zip_map_self f l]

theorem Row.getitem_ok (t : TableFu) (r : Row) (c : String)
    (h1 : c ∈ t.default_columns) (h2 : colIndex t c < r.cells.length) :
    Row.getitem t r c = .ok ⟨r.cells.getD (colIndex t c) "", r.row_num, c⟩ := by
  simp [Row.getitem, Row.get, if_pos h1, dif_pos h2,
    List.getD_eq_getElem?_getD, List.getElem?_eq_getElem h2]

/-- Claim C2 (amended): `Row.items()` produces an order-preserving
association from each active column name to the raw string value of that
cell — the `.value` of the Datum that the spec-described mapping
(`Row.itemsSpec`) would carry — not to the Datum object itself. -/
theorem items_maps_columns_to_raw_values (t : TableFu) (r : Row)
    (hsub : ∀ c ∈ t.columns, c ∈ t.default_columns)
    (hlen : r.cells.length = t.default_columns.length) :
    Row.items t r = .ok (t.columns.map (fun c =>
        (c, PyVal.str (r.cells.getD (colIndex t c) "")))) ∧
    Row.itemsSpec t r = .ok (t.columns.map (fun c =>
        (c, PyVal.datum ⟨r.cells.getD (colIndex t c) "", r.row_num, c⟩))) := by
  have hdata : Row.data t r = .ok (t.columns.map (fun c =>
      (⟨r.cells.getD (colIndex t c) "", r.row_num, c⟩ : Datum))) := by
    apply mapE_ok
    intro c hc
    have h1 : c ∈ t.default_columns := hsub c hc
    have h2 : colIndex t c < r.cells.length := by
      rw [hlen]
      exact List.indexOf_lt_length.mpr h1
    exact Row.getitem_ok t r c h1 h2
  constructor
  · simp [Row.items, Row.values, hdata, Row.keys, List.map_map,
      Function.comp, zip_map_self]
  · simp [Row.itemsSpec, hdata, Row.keys, List.map_map,
      Function.comp, zip_map_self]

/-- A one-column, one-row table for observing the items mapping. -/
def exT2 : TableFu :=
  { table := [Entry.raw ["1"]]
    default_columns := ["A"]
    _columns := []
    deleted_rows := []
    faceted_on := Option.none
    formatting := []
    style := []
    options := ⟨Option.none, [], [], Option.none⟩ }

/-- Claim C2 counterexample: on a concrete table, `Row.items()` maps the
column name to the raw string value, not to the resolved Datum object the
claim describes, and reading `.value` off the mapped item raises
AttributeError rather than producing the raw string. -/
theorem items_yields_raw_string_not_datum :
    Row.items exT2 ⟨["1"], 0⟩ = .ok [("A", PyVal.str "1")] ∧
    Row.items exT2 ⟨["1"], 0⟩ ≠ Row.itemsSpec exT2 ⟨["1"], 0⟩ ∧
    PyVal.attrValue (PyVal.str "1") =
      .error (.attributeError "str object has no attribute value") := by
  refine ⟨rfl, by decide, rfl⟩

theorem items_maps_columns_to_raw_values_witness :
    (∀ c ∈ exT2.columns, c ∈ exT2.default_columns) ∧
    (Row.mk ["1"] 0).cells.length = exT2.default_columns.length ∧
    (Row.items exT2 (Row.mk ["1"] 0) = .ok (exT2.columns.map (fun c =>
        (c, PyVal.str ((Row.mk ["1"] 0).cells.getD (colIndex exT2 c) "")))) ∧
     Row.itemsSpec exT2 (Row.mk ["1"] 0) = .ok (exT2.columns.map (fun c =>
        (c, PyVal.datum ⟨(Row.mk ["1"] 0).cells.getD (colIndex exT2 c) "",
          (Row.mk ["1"] 0).row_num, c⟩)))) :=
  ⟨by decide, by decide,
    items_maps_columns_to_raw_values exT2 (Row.mk ["1"] 0) (by decide) (by decide)⟩

/-! ### Claim C3 -/

theorem TableFu.values_ok (t : TableFu) (c : String)
    (hwf : t.wellFormed) (hc : c ∈ t.default_columns) :
    t.values c = .ok (t.table.map (fun e => keyD e (colIndex t c))) := by
  unfold TableFu.values
  rw [if_pos hc]
  apply mapE_ok
  intro e he
  exact Entry.index_eq_keyD (hwf e he) (List.indexOf_lt_length.mpr hc)

/-- Claim C3 (amended): for a known column on a well-formed table,
`total` returns the exact sum of the column values parsed as floats; when
some value does not parse, the ValueError raised is the `float`
conversion error about the first offending value (the source's custom
"contains non-numeric values" message sits in an except branch that can
never fire, because the conversion runs lazily inside `sum`, outside the
`try`).  Both this error and the unknown-column error are plain
ValueErrors, distinguishable only by their message text. -/
theorem total_sums_and_conversion_error (t : TableFu) (c : String)
    (hwf : t.wellFormed) (hc : c ∈ t.default_columns) :
    ((t.table.map (fun e => keyD e (colIndex t c))).all
        (fun v => (pyFloat v).isSome) →
      t.total c =
        .ok ((t.table.map (fun e => keyD e (colIndex t c))).filterMap pyFloat).sum) ∧
    (∀ v, (t.table.map (fun e => keyD e (colIndex t c))).find?
        (fun v => (pyFloat v).isNone) = some v →
      t.total c = .error (.valueError ("could not convert string to float: " ++ v))) := by
  have hv := TableFu.values_ok t c hwf hc
  constructor
  · intro hall
    have hnone : (t.table.map (fun e => keyD e (colIndex t c))).find?
        (fun v => (pyFloat v).isNone) = Option.none := by
      rw [List.find?_eq_none]
      intro x hx
      have h2 := List.all_eq_true.mp hall x hx
      cases hpf : pyFloat x with
      | none => rw [hpf] at h2; simp at h2
      | some q => simp [hpf]
    simp [TableFu.total, if_pos hc, hv, hnone]
  · intro v hfind
    simp [TableFu.total, if_pos hc, hv, hfind]

/-- A table whose valid column name and bad cell value make the lazily
raised float-conversion ValueError textually identical to an
unknown-column ValueError. -/
def exT3 : TableFu :=
  { table := [Entry.raw ["X isn\x27t a column in this table"]]
    default_columns := ["could not convert string to float: X"]
    _columns := []
    deleted_rows := []
    faceted_on := Option.none
    formatting := []
    style := []
    options := ⟨Option.none, [], [], Option.none⟩ }

/-- Claim C3 counterexample: `total` on a present column with a
non-numeric value raises a ValueError that is byte-for-byte equal to the
unknown-column ValueError for another column name — the two error kinds
are the same exception class and are not reliably distinguishable. -/
theorem total_error_collides_with_unknown_column_error :
    "could not convert string to float: X" ∈ exT3.default_columns ∧
    exT3.total "could not convert string to float: X" =
      .error (.valueError (unknownColMsg "could not convert string to float: X")) := by
  refine ⟨by decide, by decide⟩

/-- The spec's concrete page-count table. -/
def exT3w : TableFu :=
  { table := [Entry.raw ["120"], Entry.raw ["644"], Entry.raw ["150"],
      Entry.raw ["263"]]
    default_columns := ["Number of Pages"]
    _columns := []
    deleted_rows := []
    faceted_on := Option.none
    formatting := []
    style := []
    options := ⟨Option.none, [], [], Option.none⟩ }

theorem total_sums_and_conversion_error_witness :
    exT3w.wellFormed ∧ "Number of Pages" ∈ exT3w.default_columns ∧
    ((exT3w.table.map (fun e => keyD e (colIndex exT3w "Number of Pages"))).all
        (fun v => (pyFloat v).isSome) = true) ∧
    exT3w.total "Number of Pages" =
      .ok ((exT3w.table.map (fun e =>
        keyD e (colIndex exT3w "Number of Pages"))).filterMap pyFloat).sum :=
  ⟨by decide, by decide, by decide,
    (total_sums_and_conversion_error exT3w "Number of Pages"
      (by decide) (by decide)).1 (by decide)⟩

/-! ### Sort characterisation helpers -/

theorem sort_error_of_not_mem (t : TableFu) (c : String) (rev : Bool)
    (hcn : c ≠ "" ∨ t.options.sorted_by = Option.none)
    (hc : c ∉ t.default_columns) :
    t.sort (some c) rev = .error (.valueError (unknownColMsg c)) := by
  have hcond : (decide ((some c).getD "" = "") && t.options.sorted_by.isSome) = false := by
    cases hcn with
    | inl h => simp [h]
    | inr h => simp [h]
  unfold TableFu.sort
  rw [hcond]
  simp [hc]

theorem sort_ok_char (t : TableFu) (c : String) (rev : Bool)
    (hwf : t.wellFormed) (hc : c ∈ t.default_columns)
    (hcn : c ≠ "" ∨ t.options.sorted_by.map Prod.fst = some c ∨
      t.options.sorted_by = Option.none) :
    t.sort (some c) rev = .ok
      { t with
        table := pySort (t.table.map (fun e => (e, keyD e (colIndex t c)))) rev
        options := { t.options with sorted_by := some (c, rev) } } := by
  have hcn' : (if (decide ((some c).getD "" = "") && t.options.sorted_by.isSome)
      then t.options.sorted_by.map Prod.fst else some c) = some c := by
    by_cases hb : (decide ((some c).getD "" = "") && t.options.sorted_by.isSome) = true
    · rw [if_pos hb]
      rcases hcn with h | h | h
      · exfalso
        simp [h] at hb
      · exact h
      · exfalso
        rw [h] at hb
        simp at hb
    · rw [if_neg hb]
  have hkey : mapE (fun e =>
      match e.index (colIndex t c) with
      | .error err => .error err
      | .ok k => Except.ok (e, k)) t.table =
      .ok (t.table.map (fun e => (e, keyD e (colIndex t c)))) := by
    apply mapE_ok
    intro e he
    rw [Entry.index_eq_keyD (hwf e he)
      (show colIndex t c < t.default_columns.length from
        List.indexOf_lt_length.mpr hc)]
  unfold TableFu.sort
  rw [hcn']
  simp [hc, hkey]

/-! ### Claim C8 -/

/-- Claim C8 (amended): for a name not among the default columns,
`row[name]` raises KeyError while `transform`, `values` and `total` raise
ValueError, all with the unknown-column message, and `sort(name)` does
too unless the name is the empty (falsy) string on a table with a
recorded sort, in which case `sort` re-sorts by the recorded column;
`row.get(name, default)` returns the given default without raising.  For
names present in the default columns, on a well-formed table, `row[name]`,
`sort`, `transform` and `values` succeed, and `total` either succeeds or
raises the float-conversion ValueError. -/
theorem unknown_column_errors (t : TableFu) (r : Row) (name : String)
    (d : PyVal) (f : String → String) (rev : Bool)
    (hwf : t.wellFormed) (hr : r.cells.length = t.default_columns.length) :
    (name ∉ t.default_columns →
      Row.get t r name d = .ok d ∧
      Row.getitem t r name = .error (.keyError (unknownColMsg name)) ∧
      t.transform name f = .error (.valueError (unknownColMsg name)) ∧
      t.values name = .error (.valueError (unknownColMsg name)) ∧
      t.total name = .error (.valueError (unknownColMsg name)) ∧
      ((name ≠ "" ∨ t.options.sorted_by = Option.none) →
        t.sort (some name) rev = .error (.valueError (unknownColMsg name)))) ∧
    (name ∈ t.default_columns →
      (∃ dm, Row.getitem t r name = .ok dm) ∧
      ((name ≠ "" ∨ t.options.sorted_by = Option.none) →
        ∃ t₁, t.sort (some name) rev = .ok t₁) ∧
      (∃ t₁, t.transform name f = .ok t₁) ∧
      (∃ vs, t.values name = .ok vs) ∧
      ((∃ q, t.total name = .ok q) ∨
        (∃ v, t.total name =
          .error (.valueError ("could not convert string to float: " ++ v))))) := by
  constructor
  · intro hn
    refine ⟨?_, ?_, ?_, ?_, ?_, ?_⟩
    · simp [Row.get, hn]
    · simp [Row.getitem, Row.get, hn]
    · simp [TableFu.transform, hn]
    · simp [TableFu.values, hn]
    · simp [TableFu.total, TableFu.values, hn]
    · intro hcn
      exact sort_error_of_not_mem t name rev hcn hn
  · intro hc
    have hlt : colIndex t name < r.cells.length := by
      rw [hr]
      exact List.indexOf_lt_length.mpr hc
    refine ⟨?_, ?_, ?_, ?_, ?_⟩
    · exact ⟨_, Row.getitem_ok t r name hc hlt⟩
    · intro hcn
      exact ⟨_, sort_ok_char t name rev hwf hc (hcn.imp id Or.inr)⟩
    · have heq : mapE (fun row =>
          match row.index (colIndex t name) with
          | .error err => .error err
          | .ok val => Except.ok (row.setIndex (colIndex t name) (f val))) t.table =
          .ok (t.table.map (fun row =>
            row.setIndex (colIndex t name) (f (keyD row (colIndex t name))))) := by
        apply mapE_ok
        intro e he
        rw [Entry.index_eq_keyD (hwf e he)
          (show colIndex t name < t.default_columns.length from
            List.indexOf_lt_length.mpr hc)]
      refine ⟨{ t with table := t.table.map (fun row =>
          row.setIndex (colIndex t name) (f (keyD row (colIndex t name)))) }, ?_⟩
      unfold TableFu.transform
      rw [if_pos hc, heq]
    · exact ⟨_, TableFu.values_ok t name hwf hc⟩
    · have hv := TableFu.values_ok t name hwf hc
      cases hfind : (t.table.map (fun e => keyD e (colIndex t name))).find?
          (fun v => (pyFloat v).isNone) with
      | none =>
          left
          refine ⟨((t.table.map (fun e =>
            keyD e (colIndex t name))).filterMap pyFloat).sum, ?_⟩
          simp [TableFu.total, hc, hv, hfind]
      | some v =>
          right
          refine ⟨v, ?_⟩
          simp [TableFu.total, hc, hv, hfind]

/-- A sorted one-column table: `sort("")` falls back to the recorded
column instead of raising. -/
def exT8 : TableFu :=
  { table := [Entry.raw ["1"]]
    default_columns := ["A"]
    _columns := []
    deleted_rows := []
    faceted_on := Option.none
    formatting := []
    style := []
    options := ⟨Option.none, [], [], some ("A", false)⟩ }

/-- Claim C8 counterexample: the empty string is not a column of the
table, yet `sort("")` does not raise the unknown-column error — the falsy
name makes `sort` fall back to the recorded `sorted_by` column and
succeed, returning the table unchanged. -/
theorem sort_empty_name_falls_back :
    "" ∉ exT8.default_columns ∧ exT8.sort (some "") false = .ok exT8 := by
  refine ⟨by decide, by decide⟩

theorem unknown_column_errors_witness :
    exT8.wellFormed ∧ (Row.mk ["1"] 0).cells.length = exT8.default_columns.length ∧
    ("Nope" ∉ exT8.default_columns →
      Row.get exT8 (Row.mk ["1"] 0) "Nope" PyVal.none = .ok PyVal.none ∧
      Row.getitem exT8 (Row.mk ["1"] 0) "Nope" =
        .error (.keyError (unknownColMsg "Nope")) ∧
      exT8.transform "Nope" id = .error (.valueError (unknownColMsg "Nope")) ∧
      exT8.values "Nope" = .error (.valueError (unknownColMsg "Nope")) ∧
      exT8.total "Nope" = .error (.valueError (unknownColMsg "Nope")) ∧
      (("Nope" ≠ "" ∨ exT8.options.sorted_by = Option.none) →
        exT8.sort (some "Nope") false =
          .error (.valueError (unknownColMsg "Nope")))) ∧
    ("Nope" ∈ exT8.default_columns →
      (∃ dm, Row.getitem exT8 (Row.mk ["1"] 0) "Nope" = .ok dm) ∧
      (("Nope" ≠ "" ∨ exT8.options.sorted_by = Option.none) →
        ∃ t₁, exT8.sort (some "Nope") false = .ok t₁) ∧
      (∃ t₁, exT8.transform "Nope" id = .ok t₁) ∧
      (∃ vs, exT8.values "Nope" = .ok vs) ∧
      ((∃ q, exT8.total "Nope" = .ok q) ∨
        (∃ v, exT8.total "Nope" =
          .error (.valueError ("could not convert string to float: " ++ v))))) :=
  ⟨by decide, by decide,
    (unknown_column_errors exT8 (Row.mk ["1"] 0) "Nope" PyVal.none id false
      (by decide) (by decide)).1,
    (unknown_column_errors exT8 (Row.mk ["1"] 0) "Nope" PyVal.none id false
      (by decide) (by decide)).2⟩

/-! ### Claim C4 -/

theorem mkTableFu_no_sort (header : Entry) (body : List Entry) (opts : Options)
    (hs : opts.sorted_by = Option.none) :
    mkTableFu (header :: body) opts = .ok
      { table := body
        default_columns := header.cells
        _columns := opts.columns.getD []
        deleted_rows := []
        faceted_on := Option.none
        formatting := opts.formatting
        style := opts.style
        options := opts } := by
  unfold mkTableFu
  rw [hs]

/-- A previously sorted two-row table (its options record the sort). -/
def exT4 : TableFu :=
  { table := [Entry.raw ["1"], Entry.raw ["2"]]
    default_columns := ["A"]
    _columns := []
    deleted_rows := []
    faceted_on := Option.none
    formatting := []
    style := []
    options := ⟨Option.none, [], [], some ("A", false)⟩ }

/-- Claim C4 counterexample: on a well-formed table whose options record
a sort, `filter` does not return the filtered table at all — the new
TableFu constructor re-applies the recorded sort to the list of kept Row
objects, and indexing a Row object with the integer column index raises
KeyError. -/
theorem filter_on_sorted_table_raises_keyerror :
    exT4.wellFormed ∧
    exT4.filter (fun _ => true) = .error (.keyError (unknownColMsg "0")) := by
  refine ⟨by decide, by decide⟩

/-- Claim C4 (amended): on a well-formed table with no recorded sort in
its options, `filter(pred)` returns a new table over the same default
columns and options whose raw data is the list of Row view objects
wrapping exactly the input rows satisfying the predicate, in their
original relative order; in particular every stored entry is a Row object
whose cells are those of a predicate-satisfying raw row, not the raw row
itself.  (With a recorded sort the constructor raises KeyError instead —
see the counterexample.) -/
theorem filter_keeps_matching_rows_in_order (t : TableFu) (pred : Row → Bool)
    (hwf : t.wellFormed) (hs : t.options.sorted_by = Option.none) :
    ∃ t₁, t.filter pred = .ok t₁ ∧
      t₁.default_columns = t.default_columns ∧
      t₁.options = t.options ∧
      t₁.table = (t.table.enum.filter (fun p => pred ⟨p.2.cells, p.1⟩)).map
        (fun p => Entry.rowObj p.2.cells) ∧
      (∀ e ∈ t₁.table, ∃ i c, (i, Entry.raw c) ∈ t.table.enum ∧
        pred ⟨c, i⟩ = true ∧ e = Entry.rowObj c) := by
  have hmk := mkTableFu_no_sort (Entry.raw t.default_columns)
    ((t.table.enum.filter (fun p => pred ⟨p.2.cells, p.1⟩)).map
      (fun p => Entry.rowObj p.2.cells)) t.options hs
  refine ⟨_, hmk, rfl, rfl, rfl, ?_⟩
  intro e he
  have he' : e ∈ (t.table.enum.filter (fun p => pred ⟨p.2.cells, p.1⟩)).map
      (fun p => Entry.rowObj p.2.cells) := he
  rw [List.mem_map] at he'
  obtain ⟨p, hp, hpe⟩ := he'
  rw [List.mem_filter] at hp
  obtain ⟨hpmem, hppred⟩ := hp
  have hp2 : p.2 ∈ t.table := by
    have h1 : (p.1, p.2) ∈ t.table.enum := hpmem
    have h2 := List.mk_mem_enum_iff_getElem?.mp h1
    exact List.getElem?_mem h2
  obtain ⟨c, hc, _⟩ := isRawOfLength_elim (hwf p.2 hp2)
  refine ⟨p.1, c, ?_, ?_, ?_⟩
  · rw [← hc]
    exact hpmem
  · rw [hc] at hppred
    exact hppred
  · rw [← hpe, hc]
    rfl

/-- An unsorted table for exercising filter. -/
def exT4w : TableFu :=
  { table := [Entry.raw ["x"], Entry.raw ["y"], Entry.raw ["x"]]
    default_columns := ["A"]
    _columns := []
    deleted_rows := []
    faceted_on := Option.none
    formatting := []
    style := []
    options := ⟨Option.none, [], [], Option.none⟩ }

theorem filter_keeps_matching_rows_in_order_witness :
    exT4w.wellFormed ∧ exT4w.options.sorted_by = Option.none ∧
    (∃ t₁, exT4w.filter (fun r => decide (r.cells.getD 0 "" = "x")) = .ok t₁ ∧
      t₁.default_columns = exT4w.default_columns ∧
      t₁.options = exT4w.options ∧
      t₁.table = (exT4w.table.enum.filter (fun p =>
        decide ((Row.mk p.2.cells p.1).cells.getD 0 "" = "x"))).map
        (fun p => Entry.rowObj p.2.cells) ∧
      (∀ e ∈ t₁.table, ∃ i c, (i, Entry.raw c) ∈ exT4w.table.enum ∧
        decide ((Row.mk c i).cells.getD 0 "" = "x") = true ∧
        e = Entry.rowObj c)) :=
  ⟨by decide, by decide,
    filter_keeps_matching_rows_in_order exT4w
      (fun r => decide (r.cells.getD 0 "" = "x")) (by decide) (by decide)⟩

/-! ### Claim C6 -/

/-- The pure index-based transpose computed by `TableFu.transpose` when
all grid rows are long enough: row `i` of the result collects entry `i`
of every grid row. -/
def tpose (grid : List (List String)) (n : Nat) : List (List String) :=
  (List.range n).map (fun i => grid.map (fun row => row.getD i ""))

theorem tpose_length (grid : List (List String)) (n : Nat) :
    (tpose grid n).length = n := by simp [tpose]

theorem tpose_row_length {grid : List (List String)} {n : Nat} :
    ∀ row ∈ tpose grid n, row.length = grid.length := by
  intro row hrow
  obtain ⟨i, _, hrow⟩ := List.mem_map.mp hrow
  rw [← hrow]
  simp

theorem cells_map_raw (l : List (List String)) :
    (l.map Entry.raw).map Entry.cells = l := by
  rw [List.map_map, show Entry.cells ∘ Entry.raw = id from rfl, List.map_id]

theorem range_map_getD {l : List String} {n : Nat} (h : l.length = n) :
    (List.range n).map (fun i => l.getD i "") = l := by
  apply List.ext_getElem
  · simp [h]
  · intro i h1 h2
    simp [List.getD_eq_getElem?_getD, List.getElem?_eq_getElem h2]

theorem tpose_tpose (grid : List (List String)) (m : Nat)
    (hrect : ∀ row ∈ grid, row.length = m) :
    tpose (tpose grid m) grid.length = grid := by
  apply List.ext_getElem
  · simp [tpose]
  · intro j h1 h2
    have h2' : j < grid.length := by simpa [tpose] using h2
    calc (tpose (tpose grid m) grid.length)[j]
        = (tpose grid m).map (fun row => row.getD j "") := by
          simp [tpose]
      _ = (List.range m).map (fun i => grid[j].getD i "") := by
          simp only [tpose, List.map_map]
          apply List.map_congr_left
          intro i _
          simp only [Function.comp_apply]
          rw [List.getD_eq_getElem?_getD,
            List.getElem?_eq_getElem (by simpa using h2'), List.getElem_map]
          rfl
      _ = grid[j] := range_map_getD (hrect grid[j] (by exact List.getElem_mem h2'))

theorem grid_rect (t : TableFu) (hwf : t.wellFormed) :
    ∀ row ∈ t.grid, row.length = t.default_columns.length := by
  intro row hrow
  unfold TableFu.grid at hrow
  rcases List.mem_cons.mp hrow with h | h
  · rw [h]
  · obtain ⟨e, he, hec⟩ := List.mem_map.mp h
    obtain ⟨c, hc, hlen⟩ := isRawOfLength_elim (hwf e he)
    rw [← hec, hc]
    exact hlen

theorem transpose_eval (t : TableFu) (hwf : t.wellFormed) :
    t.transpose = mkTableFu ((tpose t.grid t.default_columns.length).map Entry.raw)
      t.options := by
  have hrect := grid_rect t hwf
  have hmap : mapE (fun i => mapE (fun row =>
        if h : i < row.length then Except.ok (row.get ⟨i, h⟩)
        else Except.error (PyErr.indexError "list index out of range")) t.grid)
        (List.range t.default_columns.length) =
      .ok ((List.range t.default_columns.length).map (fun i =>
        t.grid.map (fun row => row.getD i ""))) := by
    apply mapE_ok
    intro i hi
    have hi' : i < t.default_columns.length := List.mem_range.mp hi
    apply mapE_ok
    intro row hrow
    have hlt : i < row.length := by
      rw [hrect row hrow]
      exact hi'
    rw [dif_pos hlt]
    simp [List.getD_eq_getElem?_getD, List.getElem?_eq_getElem hlt]
  unfold TableFu.transpose
  rw [show (t.grid.headD []).length = t.default_columns.length from rfl]
  rw [hmap]
  rfl

/-- One successful transpose step: on a well-formed table with no
recorded sort whose transposed grid is non-empty, `transpose` returns a
table carrying the parent options whose grid is exactly the transposed
grid, itself well-formed with the original grid height as column count. -/
theorem transpose_step (t : TableFu) (hwf : t.wellFormed)
    (hs : t.options.sorted_by = Option.none)
    (hne : tpose t.grid t.default_columns.length ≠ []) :
    ∃ t₁, t.transpose = .ok t₁ ∧ t₁.options = t.options ∧
      t₁.grid = tpose t.grid t.default_columns.length ∧
      t₁.wellFormed ∧
      t₁.default_columns.length = t.grid.length := by
  obtain ⟨g0, gs, hg⟩ : ∃ g0 gs,
      tpose t.grid t.default_columns.length = g0 :: gs := by
    cases hc : tpose t.grid t.default_columns.length with
    | nil => exact absurd hc hne
    | cons a l => exact ⟨a, l, rfl⟩
  have hrowlen : ∀ row ∈ tpose t.grid t.default_columns.length,
      row.length = t.grid.length := tpose_row_length
  have hg0len : g0.length = t.grid.length :=
    hrowlen g0 (by rw [hg]; exact List.mem_cons_self _ _)
  have h1 := transpose_eval t hwf
  rw [hg, List.map_cons, mkTableFu_no_sort _ _ _ hs] at h1
  refine ⟨_, h1, rfl, ?_, ?_, ?_⟩
  · rw [hg]
    show (Entry.raw g0).cells :: (gs.map Entry.raw).map Entry.cells = g0 :: gs
    rw [cells_map_raw]
    rfl
  · intro e he
    obtain ⟨c, hcm, hce⟩ := List.mem_map.mp he
    have hclen : c.length = t.grid.length :=
      hrowlen c (by rw [hg]; exact List.mem_cons_of_mem _ hcm)
    rw [← hce]
    simp [Entry.isRawOfLength, Entry.cells, hclen, hg0len]
  · exact hg0len

/-- A well-formed table whose options record a sort: `transpose` passes
those options on, and the constructor re-sorts by a column name that no
longer exists after the axes swapped. -/
def exT6 : TableFu :=
  { table := [Entry.raw ["x", "y"]]
    default_columns := ["A", "B"]
    _columns := []
    deleted_rows := []
    faceted_on := Option.none
    formatting := []
    style := []
    options := ⟨Option.none, [], [], some ("B", false)⟩ }

/-- Claim C6 counterexample: on a rectangular table whose options record
a sort on column B, `transpose` raises ValueError (the transposed header
is [A, x] and the constructor immediately re-sorts by the recorded B), so
the double transpose does not reproduce the original grid — it does not
produce a table at all. -/
theorem transpose_fails_on_sorted_table :
    exT6.wellFormed ∧
    exT6.transpose = .error (.valueError (unknownColMsg "B")) := by
  refine ⟨by decide, by decide⟩

/-- Claim C6 (amended): on a well-formed rectangular table with at least
one column and no recorded sort in its options, transposing twice
reproduces the original raw grid, header row included.  (With a recorded
sort the constructor re-sort can raise or reorder — see the
counterexample.) -/
theorem transpose_transpose_grid_id (t : TableFu)
    (hwf : t.wellFormed) (hs : t.options.sorted_by = Option.none)
    (hcols : t.default_columns ≠ []) :
    ∃ t₁ t₂, t.transpose = .ok t₁ ∧ t₁.transpose = .ok t₂ ∧
      t₂.grid = t.grid := by
  have hm : 0 < t.default_columns.length := List.length_pos.mpr hcols
  have hne : tpose t.grid t.default_columns.length ≠ [] := by
    intro hnil
    have := tpose_length t.grid t.default_columns.length
    rw [hnil] at this
    simp at this
    omega
  obtain ⟨t₁, ht1, hopt1, hgrid1, hwf1, hlen1⟩ := transpose_step t hwf hs hne
  have hs1 : t₁.options.sorted_by = Option.none := by rw [hopt1]; exact hs
  have hne1 : tpose t₁.grid t₁.default_columns.length ≠ [] := by
    intro hnil
    have h0 := tpose_length t₁.grid t₁.default_columns.length
    rw [hnil] at h0
    simp at h0
    have hgl : 0 < t.grid.length := by
      unfold TableFu.grid
      simp
    rw [hlen1] at h0
    omega
  obtain ⟨t₂, ht2, _, hgrid2, _, _⟩ := transpose_step t₁ hwf1 hs1 hne1
  refine ⟨t₁, t₂, ht1, ht2, ?_⟩
  rw [hgrid2, hgrid1, hlen1]
  exact tpose_tpose t.grid t.default_columns.length (grid_rect t hwf)

/-- A plain two-column table with no recorded sort. -/
def exT6w : TableFu :=
  { table := [Entry.raw ["1", "2"]]
    default_columns := ["A", "B"]
    _columns := []
    deleted_rows := []
    faceted_on := Option.none
    formatting := []
    style := []
    options := ⟨Option.none, [], [], Option.none⟩ }

theorem transpose_transpose_grid_id_witness :
    exT6w.wellFormed ∧ exT6w.options.sorted_by = Option.none ∧
    exT6w.default_columns ≠ [] ∧
    (∃ t₁ t₂, exT6w.transpose = .ok t₁ ∧ t₁.transpose = .ok t₂ ∧
      t₂.grid = exT6w.grid) :=
  ⟨by decide, by decide, by decide,
    transpose_transpose_grid_id exT6w (by decide) (by decide) (by decide)⟩

/-! ### Stable-sort lemmas for pySort -/

theorem snd_eq_key_of_mem {α : Type} {key : α → String} {l : List α}
    {p : α × String} (hp : p ∈ l.map (fun e => (e, key e))) : p.2 = key p.1 := by
  obtain ⟨e, _, he⟩ := List.mem_map.mp hp
  rw [← he]

theorem map_fst_keyed {α : Type} (key : α → String) (l : List α) :
    (l.map (fun e => (e, key e))).map Prod.fst = l := by
  rw [List.map_map, show (Prod.fst ∘ fun e => (e, key e)) = id from rfl, List.map_id]

theorem pySort_perm {α : Type} (rev : Bool) (key : α → String) (l : List α) :
    (pySort (l.map (fun e => (e, key e))) rev).Perm l := by
  unfold pySort
  cases rev
  · have h := (List.perm_insertionSort keyLe (l.map (fun e => (e, key e)))).map Prod.fst
    rw [map_fst_keyed] at h
    simpa using h
  · have h := (List.perm_insertionSort keyGe (l.map (fun e => (e, key e)))).map Prod.fst
    rw [map_fst_keyed] at h
    simpa using h

theorem pySort_pairwise {α : Type} (rev : Bool) (key : α → String) (l : List α) :
    (pySort (l.map (fun e => (e, key e))) rev).Pairwise
      (fun a b => if rev then key b ≤ key a else key a ≤ key b) := by
  unfold pySort
  cases rev
  · show (((l.map (fun e => (e, key e))).insertionSort keyLe).map Prod.fst).Pairwise _
    rw [List.pairwise_map]
    refine (List.sorted_insertionSort keyLe _).imp_of_mem ?_
    intro a b ha hb hab
    have ha' := snd_eq_key_of_mem ((List.mem_insertionSort _).mp ha)
    have hb' := snd_eq_key_of_mem ((List.mem_insertionSort _).mp hb)
    show if false then key b.1 ≤ key a.1 else key a.1 ≤ key b.1
    rw [if_neg (by simp)]
    rw [← ha', ← hb']
    exact hab
  · show (((l.map (fun e => (e, key e))).insertionSort keyGe).map Prod.fst).Pairwise _
    rw [List.pairwise_map]
    refine (List.sorted_insertionSort keyGe _).imp_of_mem ?_
    intro a b ha hb hab
    have ha' := snd_eq_key_of_mem ((List.mem_insertionSort _).mp ha)
    have hb' := snd_eq_key_of_mem ((List.mem_insertionSort _).mp hb)
    show if true then key b.1 ≤ key a.1 else key a.1 ≤ key b.1
    rw [if_pos (by simp)]
    rw [← ha', ← hb']
    exact hab

theorem insertionSort_filter_key {α : Type} (r : α × String → α × String → Prop)
    [DecidableRel r] [IsTotal (α × String) r] [IsTrans (α × String) r]
    (hrefl : ∀ p q : α × String, p.2 = q.2 → r p q)
    (keyed : List (α × String)) (k : String) :
    (keyed.insertionSort r).filter (fun p => p.2 == k) =
      keyed.filter (fun p => p.2 == k) := by
  have hA : (keyed.filter (fun p => p.2 == k)).Pairwise r := by
    apply List.pairwise_of_forall_mem_list
    intro a ha b hb
    have ha' : a.2 = k := by simpa using (List.mem_filter.mp ha).2
    have hb' : b.2 = k := by simpa using (List.mem_filter.mp hb).2
    exact hrefl a b (by rw [ha', hb'])
  have hsub : List.Sublist (keyed.filter (fun p => p.2 == k))
      (keyed.insertionSort r) :=
    List.sublist_insertionSort hA (List.filter_sublist _)
  have hperm : List.Perm ((keyed.insertionSort r).filter (fun p => p.2 == k))
      (keyed.filter (fun p => p.2 == k)) :=
    (List.perm_insertionSort r keyed).filter _
  have hsub2 : List.Sublist (keyed.filter (fun p => p.2 == k))
      ((keyed.insertionSort r).filter (fun p => p.2 == k)) := by
    have h1 := hsub.filter (fun p => p.2 == k)
    rwa [List.filter_eq_self.mpr (fun a ha => (List.mem_filter.mp ha).2)] at h1
  exact (hsub2.eq_of_length hperm.length_eq.symm).symm

theorem pySort_filter {α : Type} (rev : Bool) (key : α → String) (l : List α)
    (k : String) :
    (pySort (l.map (fun e => (e, key e))) rev).filter (fun a => key a == k) =
      l.filter (fun a => key a == k) := by
  have hback : (l.map (fun e => (e, key e))).filter (fun p => p.2 == k) =
      (l.filter (fun a => key a == k)).map (fun e => (e, key e)) :=
    List.filter_map _ l
  have core : ∀ (r : α × String → α × String → Prop) [DecidableRel r]
      [IsTotal (α × String) r] [IsTrans (α × String) r],
      (∀ p q : α × String, p.2 = q.2 → r p q) →
      (((l.map (fun e => (e, key e))).insertionSort r).map Prod.fst).filter
        (fun a => key a == k) = l.filter (fun a => key a == k) := by
    intro r instD instT instTr hrefl
    rw [List.filter_map]
    have hcongr : ((l.map (fun e => (e, key e))).insertionSort r).filter
        ((fun a => key a == k) ∘ Prod.fst) =
        ((l.map (fun e => (e, key e))).insertionSort r).filter (fun p => p.2 == k) := by
      apply List.filter_congr
      intro p hp
      have := snd_eq_key_of_mem ((List.mem_insertionSort _).mp hp)
      simp only [Function.comp_apply]
      rw [this]
    rw [hcongr, insertionSort_filter_key r hrefl, hback, List.map_map,
      show (Prod.fst ∘ fun e => (e, key e)) = id from rfl, List.map_id]
  unfold pySort
  cases rev
  · exact core keyLe (fun p q h => le_of_eq h)
  · exact core keyGe (fun p q h => le_of_eq h.symm)

theorem keyed_pySort {α : Type} (rev : Bool) (key : α → String) (l : List α) :
    (pySort (l.map (fun e => (e, key e))) rev).map (fun e => (e, key e)) =
      (if rev then (l.map (fun e => (e, key e))).insertionSort keyGe
       else (l.map (fun e => (e, key e))).insertionSort keyLe) := by
  have core : ∀ (r : α × String → α × String → Prop) [DecidableRel r],
      (((l.map (fun e => (e, key e))).insertionSort r).map Prod.fst).map
        (fun e => (e, key e)) = (l.map (fun e => (e, key e))).insertionSort r := by
    intro r instD
    rw [List.map_map]
    have h : ∀ p ∈ (l.map (fun e => (e, key e))).insertionSort r,
        ((fun e => (e, key e)) ∘ Prod.fst) p = p := by
      intro p hp
      have := snd_eq_key_of_mem ((List.mem_insertionSort _).mp hp)
      simp only [Function.comp_apply]
      rw [← this]
    rw [List.map_congr_left h]
    simp
  unfold pySort
  cases rev
  · show (((l.map (fun e => (e, key e))).insertionSort keyLe).map Prod.fst).map
        (fun e => (e, key e)) = (l.map (fun e => (e, key e))).insertionSort keyLe
    exact core keyLe
  · show (((l.map (fun e => (e, key e))).insertionSort keyGe).map Prod.fst).map
        (fun e => (e, key e)) = (l.map (fun e => (e, key e))).insertionSort keyGe
    exact core keyGe

theorem pySort_idem {α : Type} (rev : Bool) (key : α → String) (l : List α) :
    pySort ((pySort (l.map (fun e => (e, key e))) rev).map (fun e => (e, key e))) rev =
      pySort (l.map (fun e => (e, key e))) rev := by
  rw [keyed_pySort]
  unfold pySort
  cases rev
  · show ((((l.map (fun e => (e, key e))).insertionSort keyLe).insertionSort keyLe).map Prod.fst) = _
    rw [List.Sorted.insertionSort_eq (List.sorted_insertionSort keyLe _)]
    rfl
  · show ((((l.map (fun e => (e, key e))).insertionSort keyGe).insertionSort keyGe).map Prod.fst) = _
    rw [List.Sorted.insertionSort_eq (List.sorted_insertionSort keyGe _)]
    rfl

theorem eq_of_perm_of_pairwise_asymm {β : Type} (R : β → β → Prop)
    (hasym : ∀ a b, R a b → R b a → False) {l₁ l₂ : List β}
    (hp : List.Perm l₁ l₂) (h₁ : l₁.Pairwise R) (h₂ : l₂.Pairwise R) :
    l₁ = l₂ := by
  haveI : IsAntisymm β R := ⟨fun a b h1 h2 => (hasym a b h1 h2).elim⟩
  exact List.eq_of_perm_of_sorted hp h₁ h₂

theorem snd_nodup_of_perm_keyed {α : Type} {key : α → String} {l : List α}
    {m : List (α × String)}
    (hp : List.Perm m (l.map (fun e => (e, key e))))
    (hnd : (l.map key).Nodup) : (m.map Prod.snd).Nodup := by
  have h1 := hp.map Prod.snd
  have h2 : (l.map (fun e => (e, key e))).map Prod.snd = l.map key := by
    rw [List.map_map]
    rfl
  rw [h2] at h1
  exact h1.nodup_iff.mpr hnd

theorem pairwise_strict_of_sorted_le {α : Type} {m : List (α × String)}
    (hle : m.Pairwise keyLe) (hnd : (m.map Prod.snd).Nodup) :
    m.Pairwise (fun p q : α × String => p.2 < q.2) :=
  (hle.and (List.pairwise_map.mp hnd)).imp
    (fun h => lt_of_le_of_ne h.1 h.2)

theorem pairwise_strict_of_sorted_ge {α : Type} {m : List (α × String)}
    (hle : m.Pairwise keyGe) (hnd : (m.map Prod.snd).Nodup) :
    m.Pairwise (fun p q : α × String => q.2 < p.2) :=
  (hle.and (List.pairwise_map.mp hnd)).imp
    (fun h => lt_of_le_of_ne h.1 h.2.symm)

theorem pySort_reverse_toggle {α : Type} (rev : Bool) (key : α → String)
    (l : List α) (hnd : (l.map key).Nodup) :
    pySort ((pySort (l.map (fun e => (e, key e))) rev).map (fun e => (e, key e)))
      (!rev) = (pySort (l.map (fun e => (e, key e))) rev).reverse := by
  rw [keyed_pySort]
  cases rev
  · show (List.insertionSort keyGe
        ((l.map (fun e => (e, key e))).insertionSort keyLe)).map Prod.fst =
      (((l.map (fun e => (e, key e))).insertionSort keyLe).map Prod.fst).reverse
    have hysperm : List.Perm ((l.map (fun e => (e, key e))).insertionSort keyLe)
        (l.map (fun e => (e, key e))) := List.perm_insertionSort keyLe _
    have hysnd := snd_nodup_of_perm_keyed hysperm hnd
    have hysstrict := pairwise_strict_of_sorted_le
      (List.sorted_insertionSort keyLe (l.map (fun e => (e, key e)))) hysnd
    have hzsperm : List.Perm (List.insertionSort keyGe
        ((l.map (fun e => (e, key e))).insertionSort keyLe))
        ((l.map (fun e => (e, key e))).insertionSort keyLe) :=
      List.perm_insertionSort keyGe _
    have hzsnd := snd_nodup_of_perm_keyed (hzsperm.trans hysperm) hnd
    have hzsstrict := pairwise_strict_of_sorted_ge
      (List.sorted_insertionSort keyGe
        ((l.map (fun e => (e, key e))).insertionSort keyLe)) hzsnd
    have hrevstrict : (((l.map (fun e => (e, key e))).insertionSort
        keyLe).reverse).Pairwise (fun p q : α × String => q.2 < p.2) := by
      rw [List.pairwise_reverse]
      exact hysstrict
    have heq := eq_of_perm_of_pairwise_asymm
      (fun p q : α × String => q.2 < p.2)
      (fun a b h1 h2 => lt_asymm h1 h2)
      (hzsperm.trans ((l.map (fun e => (e, key e))).insertionSort
        keyLe).reverse_perm.symm)
      hzsstrict hrevstrict
    rw [heq, List.map_reverse]
  · show (List.insertionSort keyLe
        ((l.map (fun e => (e, key e))).insertionSort keyGe)).map Prod.fst =
      (((l.map (fun e => (e, key e))).insertionSort keyGe).map Prod.fst).reverse
    have hysperm : List.Perm ((l.map (fun e => (e, key e))).insertionSort keyGe)
        (l.map (fun e => (e, key e))) := List.perm_insertionSort keyGe _
    have hysnd := snd_nodup_of_perm_keyed hysperm hnd
    have hysstrict := pairwise_strict_of_sorted_ge
      (List.sorted_insertionSort keyGe (l.map (fun e => (e, key e)))) hysnd
    have hzsperm : List.Perm (List.insertionSort keyLe
        ((l.map (fun e => (e, key e))).insertionSort keyGe))
        ((l.map (fun e => (e, key e))).insertionSort keyGe) :=
      List.perm_insertionSort keyLe _
    have hzsnd := snd_nodup_of_perm_keyed (hzsperm.trans hysperm) hnd
    have hzsstrict := pairwise_strict_of_sorted_le
      (List.sorted_insertionSort keyLe
        ((l.map (fun e => (e, key e))).insertionSort keyGe)) hzsnd
    have hrevstrict : (((l.map (fun e => (e, key e))).insertionSort
        keyGe).reverse).Pairwise (fun p q : α × String => p.2 < q.2) := by
      rw [List.pairwise_reverse]
      exact hysstrict
    have heq := eq_of_perm_of_pairwise_asymm
      (fun p q : α × String => p.2 < q.2)
      (fun a b h1 h2 => lt_asymm h1 h2)
      (hzsperm.trans ((l.map (fun e => (e, key e))).insertionSort
        keyGe).reverse_perm.symm)
      hzsstrict hrevstrict
    rw [heq, List.map_reverse]

/-! ### Claim C5 -/

/-- Row ordering by the raw string key at a column index, flipped under
`reverse` (string comparison, not numeric). -/
def rowLe (rev : Bool) (i : Nat) (a b : Entry) : Prop :=
  if rev then keyD b i ≤ keyD a i else keyD a i ≤ keyD b i

/-- Claim C5: on a well-formed table, `sort(column, reverse)` performs a
stable sort of the raw rows keyed by the raw string value at that
column's index (string comparison, not numeric): the result is a
permutation of the rows ordered by the key, rows with equal keys keep
their original relative order, sorting twice by the same column and
direction equals sorting once, and for a column with pairwise distinct
values re-sorting with `reverse` toggled yields the exact reverse order.
(A falsy empty-string column name would instead fall back to a recorded
sort, as §4.3 describes for an omitted name — hence the side
hypothesis.) -/
theorem sort_stable_idempotent_reverse (t : TableFu) (c : String) (rev : Bool)
    (hwf : t.wellFormed) (hc : c ∈ t.default_columns)
    (hcn : c ≠ "" ∨ t.options.sorted_by = Option.none) :
    ∃ t₁, t.sort (some c) rev = .ok t₁ ∧
      t₁.table.Perm t.table ∧
      t₁.table.Pairwise (rowLe rev (colIndex t c)) ∧
      (∀ k, t₁.table.filter (fun e => keyD e (colIndex t c) == k) =
        t.table.filter (fun e => keyD e (colIndex t c) == k)) ∧
      t₁.sort (some c) rev = .ok t₁ ∧
      ((t.table.map (fun e => keyD e (colIndex t c))).Nodup →
        ∃ t₂, t₁.sort (some c) (!rev) = .ok t₂ ∧
          t₂.table = t₁.table.reverse) := by
  have h1 := sort_ok_char t c rev hwf hc (hcn.imp id Or.inr)
  have hperm := pySort_perm rev (fun e => keyD e (colIndex t c)) t.table
  have hwf₁ : TableFu.wellFormed
      { t with
        table := pySort (t.table.map (fun e => (e, keyD e (colIndex t c)))) rev
        options := { t.options with sorted_by := some (c, rev) } } := by
    intro e he
    exact hwf e (hperm.mem_iff.mp he)
  refine ⟨_, h1, hperm, ?_, ?_, ?_, ?_⟩
  · exact pySort_pairwise rev (fun e => keyD e (colIndex t c)) t.table
  · intro k
    exact pySort_filter rev (fun e => keyD e (colIndex t c)) t.table k
  · have h2 := sort_ok_char
      { t with
        table := pySort (t.table.map (fun e => (e, keyD e (colIndex t c)))) rev
        options := { t.options with sorted_by := some (c, rev) } }
      c rev hwf₁ hc (Or.inr (Or.inl rfl))
    have h2' : TableFu.sort
        { t with
          table := pySort (t.table.map (fun e => (e, keyD e (colIndex t c)))) rev
          options := { t.options with sorted_by := some (c, rev) } }
        (some c) rev = .ok
        { t with
          table := pySort
            ((pySort (t.table.map (fun e => (e, keyD e (colIndex t c)))) rev).map
              (fun e => (e, keyD e (colIndex t c)))) rev
          options := { t.options with sorted_by := some (c, rev) } } := h2
    rw [pySort_idem rev (fun e => keyD e (colIndex t c)) t.table] at h2'
    exact h2'
  · intro hnd
    have h3 := sort_ok_char
      { t with
        table := pySort (t.table.map (fun e => (e, keyD e (colIndex t c)))) rev
        options := { t.options with sorted_by := some (c, rev) } }
      c (!rev) hwf₁ hc (Or.inr (Or.inl rfl))
    have h3' : TableFu.sort
        { t with
          table := pySort (t.table.map (fun e => (e, keyD e (colIndex t c)))) rev
          options := { t.options with sorted_by := some (c, rev) } }
        (some c) (!rev) = .ok
        { t with
          table := pySort
            ((pySort (t.table.map (fun e => (e, keyD e (colIndex t c)))) rev).map
              (fun e => (e, keyD e (colIndex t c)))) (!rev)
          options := { t.options with sorted_by := some (c, !rev) } } := h3
    rw [pySort_reverse_toggle rev (fun e => keyD e (colIndex t c)) t.table hnd] at h3'
    exact ⟨_, h3', rfl⟩

/-- The spec scenario 7 table: authors, books, page counts, styles. -/
def exT5 : TableFu :=
  { table := [Entry.raw ["Samuel Beckett", "Malone Muert", "120", "Modernism"],
      Entry.raw ["James Joyce", "Ulysses", "644", "Modernism"],
      Entry.raw ["Nicholson Baker", "Mezannine", "150", "Minimalism"],
      Entry.raw ["Vladimir Sorokin", "The Queue", "263", "Satire"]]
    default_columns := ["Author", "Best Book", "Number of Pages", "Style"]
    _columns := []
    deleted_rows := []
    faceted_on := Option.none
    formatting := []
    style := []
    options := ⟨Option.none, [], [], Option.none⟩ }

theorem sort_stable_idempotent_reverse_witness :
    exT5.wellFormed ∧ "Number of Pages" ∈ exT5.default_columns ∧
    ("Number of Pages" ≠ "" ∨ exT5.options.sorted_by = Option.none) ∧
    (∃ t₁, exT5.sort (some "Number of Pages") true = .ok t₁ ∧
      t₁.table.Perm exT5.table ∧
      t₁.table.Pairwise (rowLe true (colIndex exT5 "Number of Pages")) ∧
      (∀ k, t₁.table.filter
          (fun e => keyD e (colIndex exT5 "Number of Pages") == k) =
        exT5.table.filter
          (fun e => keyD e (colIndex exT5 "Number of Pages") == k)) ∧
      t₁.sort (some "Number of Pages") true = .ok t₁ ∧
      ((exT5.table.map (fun e => keyD e (colIndex exT5 "Number of Pages"))).Nodup →
        ∃ t₂, t₁.sort (some "Number of Pages") (!true) = .ok t₂ ∧
          t₂.table = t₁.table.reverse)) :=
  ⟨by decide, by decide, by decide,
    sort_stable_idempotent_reverse exT5 "Number of Pages" true
      (by decide) (by decide) (Or.inl (by decide))⟩

/-! ### Claim C1 -/

/-- The distinct keys of a list in order of first occurrence: the
insertion order of the `faceted_spreadsheets` dictionary. -/
def firstOcc {α : Type} (key : α → String) (l : List α) : List String :=
  l.foldl (fun ks a => if key a ∈ ks then ks else ks ++ [key a]) []

theorem foldl_occ_mem {α : Type} (key : α → String) (l : List α) :
    ∀ (acc : List String) (x : String),
      (x ∈ l.foldl (fun ks a => if key a ∈ ks then ks else ks ++ [key a]) acc ↔
        x ∈ acc ∨ ∃ a ∈ l, key a = x) := by
  induction l with
  | nil => intro acc x; simp
  | cons a l ih =>
      intro acc x
      rw [List.foldl_cons]
      by_cases h : key a ∈ acc
      · rw [if_pos h, ih]
        constructor
        · rintro (hx | ⟨b, hb, rfl⟩)
          · exact Or.inl hx
          · exact Or.inr ⟨b, List.mem_cons_of_mem _ hb, rfl⟩
        · rintro (hx | ⟨b, hb, rfl⟩)
          · exact Or.inl hx
          · rcases List.mem_cons.mp hb with heq | hb'
            · rw [heq]
              exact Or.inl h
            · exact Or.inr ⟨b, hb', rfl⟩
      · rw [if_neg h, ih]
        constructor
        · rintro (hx | ⟨b, hb, rfl⟩)
          · rcases List.mem_append.mp hx with hx' | hx'
            · exact Or.inl hx'
            · have hxa : x = key a := by simpa using hx'
              exact Or.inr ⟨a, List.mem_cons_self a l, hxa.symm⟩
          · exact Or.inr ⟨b, List.mem_cons_of_mem _ hb, rfl⟩
        · rintro (hx | ⟨b, hb, rfl⟩)
          · exact Or.inl (List.mem_append.mpr (Or.inl hx))
          · rcases List.mem_cons.mp hb with heq | hb'
            · exact Or.inl (List.mem_append.mpr (Or.inr (by simp [heq])))
            · exact Or.inr ⟨b, hb', rfl⟩

theorem mem_firstOcc {α : Type} (key : α → String) (l : List α) (x : String) :
    x ∈ firstOcc key l ↔ ∃ a ∈ l, key a = x := by
  unfold firstOcc
  rw [foldl_occ_mem]
  simp

theorem foldl_occ_nodup {α : Type} (key : α → String) (l : List α) :
    ∀ acc : List String, acc.Nodup →
      (l.foldl (fun ks a => if key a ∈ ks then ks else ks ++ [key a]) acc).Nodup := by
  induction l with
  | nil => intro acc h; simpa
  | cons a l ih =>
      intro acc h
      rw [List.foldl_cons]
      by_cases hm : key a ∈ acc
      · rw [if_pos hm]
        exact ih acc h
      · rw [if_neg hm]
        refine ih _ ?_
        simp [List.nodup_append, h, hm]

theorem nodup_firstOcc {α : Type} (key : α → String) (l : List α) :
    (firstOcc key l).Nodup :=
  foldl_occ_nodup key l [] List.nodup_nil

theorem addFacetRow_step (key : List String → String) (pre : List (List String))
    (c : List String) :
    addFacetRow ((firstOcc key pre).map
        (fun k => (k, pre.filter (fun c2 => key c2 == k)))) (key c) c =
      (firstOcc key (pre ++ [c])).map
        (fun k => (k, (pre ++ [c]).filter (fun c2 => key c2 == k))) := by
  have hocc : firstOcc key (pre ++ [c]) =
      if key c ∈ firstOcc key pre then firstOcc key pre
      else firstOcc key pre ++ [key c] := by
    unfold firstOcc
    rw [List.foldl_append]
    rfl
  by_cases hin : key c ∈ firstOcc key pre
  · unfold addFacetRow
    rw [if_pos (by
      rw [List.any_eq_true]
      exact ⟨(key c, pre.filter (fun c2 => key c2 == key c)),
        List.mem_map_of_mem _ hin, by simp⟩)]
    rw [hocc, if_pos hin, List.map_map]
    apply List.map_congr_left
    intro k hk
    simp only [Function.comp_apply]
    by_cases hkc : k = key c
    · rw [if_pos (by simp [hkc])]
      rw [List.filter_append]
      simp [hkc]
    · rw [if_neg (by simp [hkc])]
      rw [List.filter_append]
      have hkc2 : ¬(key c = k) := fun h => hkc h.symm
      simp [hkc2]
  · unfold addFacetRow
    rw [if_neg (by
      rw [List.any_eq_true]
      rintro ⟨g, hg, hgc⟩
      obtain ⟨k, hk, rfl⟩ := List.mem_map.mp hg
      have hkeq : k = key c := by simpa using hgc
      exact hin (hkeq ▸ hk))]
    rw [hocc, if_neg hin, List.map_append]
    have h1 : (firstOcc key pre).map
        (fun k => (k, pre.filter (fun c2 => key c2 == k))) =
        (firstOcc key pre).map
          (fun k => (k, (pre ++ [c]).filter (fun c2 => key c2 == k))) := by
      apply List.map_congr_left
      intro k hk
      have hkc : ¬(key c = k) := fun h => hin (h ▸ hk)
      rw [List.filter_append]
      simp [hkc]
    have h2 : ([(key c, [c])] : List (String × List (List String))) =
        [key c].map (fun k => (k, (pre ++ [c]).filter (fun c2 => key c2 == k))) := by
      have hnil : pre.filter (fun c2 => key c2 == key c) = [] := by
        rw [List.filter_eq_nil_iff]
        intro a ha hkey
        exact hin ((mem_firstOcc key pre (key c)).mpr
          ⟨a, ha, by simpa using hkey⟩)
      simp [List.filter_append, hnil]
    rw [← h1, ← h2]

theorem foldl_addFacetRow (key : List String → String) (l : List (List String)) :
    ∀ pre : List (List String),
      l.foldl (fun gs c => addFacetRow gs (key c) c)
        ((firstOcc key pre).map (fun k => (k, pre.filter (fun c2 => key c2 == k)))) =
      (firstOcc key (pre ++ l)).map
        (fun k => (k, (pre ++ l).filter (fun c2 => key c2 == k))) := by
  induction l with
  | nil => intro pre; simp
  | cons c l ih =>
      intro pre
      rw [List.foldl_cons, addFacetRow_step key pre c]
      have h := ih (pre ++ [c])
      rw [h, List.append_assoc]
      rfl

theorem foldl_enum_snd {α β : Type} (f : β → α → β) (l : List α) :
    ∀ (n : Nat) (b : β),
      (l.enumFrom n).foldl (fun gs p => f gs p.2) b = l.foldl f b := by
  induction l with
  | nil => intro n b; rfl
  | cons a l ih =>
      intro n b
      rw [List.enumFrom_cons, List.foldl_cons, List.foldl_cons]
      exact ih (n + 1) (f b a)

theorem filter_cells_map_raw (t : TableFu) (hwf : t.wellFormed)
    (p : List String → Bool) :
    ((t.table.map Entry.cells).filter p).map Entry.raw =
      t.table.filter (fun e => p e.cells) := by
  rw [List.filter_map, List.map_map]
  have h : ∀ e ∈ t.table.filter (p ∘ Entry.cells),
      (Entry.raw ∘ Entry.cells) e = e := by
    intro e he
    obtain ⟨cc, hcc, _⟩ := isRawOfLength_elim (hwf e (List.mem_of_mem_filter he))
    rw [hcc]
    rfl
  rw [List.map_congr_left h, List.map_id']
  rfl

theorem join_filter_perm {α : Type} [DecidableEq α] (key : α → String) :
    ∀ (ks : List String), ks.Nodup → ∀ (l : List α), (∀ a ∈ l, key a ∈ ks) →
      List.Perm (ks.map (fun k => l.filter (fun a => key a == k))).flatten l := by
  intro ks
  induction ks with
  | nil =>
      intro _ l hcov
      have hl : l = [] := by
        cases l with
        | nil => rfl
        | cons a l2 => exact absurd (hcov a (List.mem_cons_self a l2)) (by simp)
      rw [hl]
      simp
  | cons k ks ih =>
      intro hnd l hcov
      have hnd' := List.nodup_cons.mp hnd
      rw [List.map_cons, List.flatten_cons]
      have hrest : ks.map (fun k2 => l.filter (fun a => key a == k2)) =
          ks.map (fun k2 => (l.filter (fun a => !(key a == k))).filter
            (fun a => key a == k2)) := by
        apply List.map_congr_left
        intro k2 hk2
        rw [List.filter_filter]
        apply List.filter_congr
        intro a _
        by_cases hk : key a = k2
        · have hne2 : ¬(k2 = k) := fun h => hnd'.1 (h ▸ hk2)
          have hne : ¬(key a = k) := by
            rw [hk]
            exact hne2
          simp [hk, hne, hne2]
        · simp [hk]
      rw [hrest]
      have hcov' : ∀ a ∈ l.filter (fun a => !(key a == k)), key a ∈ ks := by
        intro a ha
        have hmem := List.mem_filter.mp ha
        have hne : ¬(key a = k) := by simpa using hmem.2
        rcases List.mem_cons.mp (hcov a hmem.1) with heq | h2
        · exact absurd heq hne
        · exact h2
      have hihp := ih hnd'.2 (l.filter (fun a => !(key a == k))) hcov'
      exact (List.Perm.append_left _ hihp).trans (List.filter_append_perm _ l)

theorem facet_by_eval (t : TableFu) (column : String)
    (hwf : t.wellFormed) (hc : column ∈ t.default_columns) :
    t.facet_by column = .ok
      ((List.insertionSort fstLe
        ((firstOcc (fun c2 => c2.getD (colIndex t column) "")
            (t.table.map Entry.cells)).map (fun k =>
          (k, (t.table.map Entry.cells).filter
            (fun c2 => c2.getD (colIndex t column) "" == k))))).map (fun g =>
        { table := g.2.map Entry.raw
          default_columns := t.default_columns
          _columns := []
          deleted_rows := []
          faceted_on := some g.1
          formatting := t.formatting
          style := []
          options := t.options })) := by
  have hfold : foldE (fun groups p =>
      match Row.getitem t ⟨p.2.cells, p.1⟩ column with
      | .error e => .error e
      | .ok d => Except.ok (addFacetRow groups d.value p.2.cells)) [] t.table.enum =
      .ok (t.table.enum.foldl (fun groups p =>
        addFacetRow groups (p.2.cells.getD (colIndex t column) "") p.2.cells) []) := by
    apply foldE_ok
    intro p hp b
    have hp2 : p.2 ∈ t.table := by
      have h1 : (p.1, p.2) ∈ t.table.enum := hp
      exact List.getElem?_mem (List.mk_mem_enum_iff_getElem?.mp h1)
    have hlen : colIndex t column < (Row.mk p.2.cells p.1).cells.length := by
      show colIndex t column < p.2.cells.length
      obtain ⟨cc, hcc, hlc⟩ := isRawOfLength_elim (hwf p.2 hp2)
      rw [hcc]
      show colIndex t column < cc.length
      rw [hlc]
      exact List.indexOf_lt_length.mpr hc
    rw [Row.getitem_ok t ⟨p.2.cells, p.1⟩ column hc hlen]
  have h2 : t.table.enum.foldl (fun groups p =>
      addFacetRow groups (p.2.cells.getD (colIndex t column) "") p.2.cells) [] =
      (t.table.map Entry.cells).foldl (fun groups c2 =>
        addFacetRow groups (c2.getD (colIndex t column) "") c2) [] := by
    rw [show t.table.enum = t.table.enumFrom 0 from rfl]
    rw [foldl_enum_snd (fun groups e =>
      addFacetRow groups (e.cells.getD (colIndex t column) "") e.cells) t.table 0 []]
    rw [List.foldl_map]
  have h3 : (t.table.map Entry.cells).foldl (fun gs c2 =>
      addFacetRow gs (c2.getD (colIndex t column) "") c2) [] =
      (firstOcc (fun c2 => c2.getD (colIndex t column) "") (t.table.map Entry.cells)).map
        (fun k => (k, (t.table.map Entry.cells).filter
          (fun c2 => c2.getD (colIndex t column) "" == k))) := by
    have h4 := foldl_addFacetRow (fun c2 => c2.getD (colIndex t column) "")
      (t.table.map Entry.cells) []
    have hinit : ((firstOcc (fun c2 => c2.getD (colIndex t column) "")
        ([] : List (List String))).map
        (fun k => (k, ([] : List (List String)).filter
          (fun c2 => c2.getD (colIndex t column) "" == k)))) =
        ([] : List (String × List (List String))) := rfl
    rw [hinit, List.nil_append] at h4
    exact h4
  unfold TableFu.facet_by
  rw [hfold]
  show Except.ok ((List.insertionSort fstLe (t.table.enum.foldl (fun groups p =>
      addFacetRow groups (p.2.cells.getD (colIndex t column) "") p.2.cells) [])).map _) = _
  rw [h2, h3]

/-- A table with a single row whose facet column holds the empty string. -/
def exT1 : TableFu :=
  { table := [Entry.raw [""]]
    default_columns := ["A"]
    _columns := []
    deleted_rows := []
    faceted_on := Option.none
    formatting := []
    style := []
    options := ⟨Option.none, [], [], Option.none⟩ }

/-- Claim C1 counterexample: a row whose value in the facet column is the
empty string is not excluded — `if row[column]` tests a Datum object,
which is always truthy — so `facet_by` returns a facet keyed by the empty
string containing that row, where the claim says the row appears in no
returned table. -/
theorem facet_by_keeps_empty_valued_rows :
    (exT1.facet_by "A").map (fun ts => ts.map (fun tb => (tb.faceted_on, tb.table))) =
      .ok [(some "", [Entry.raw [""]])] := by
  decide

/-- Claim C1 (amended): `facet_by(column)` partitions all of the table's
rows — empty string values included, since every cell's Datum is truthy —
by the exact string value of the column: the returned tables are keyed by
the pairwise-distinct facet values in ascending order, the table keyed
`k` holds exactly the rows whose value is `k` in their original relative
order, every row's value is among the keys, and the returned tables'
rows together are a permutation of all input rows. -/
theorem facet_by_partitions_all_rows (t : TableFu) (column : String)
    (hwf : t.wellFormed) (hc : column ∈ t.default_columns) :
    ∃ ks : List String,
      ks.Pairwise (fun a b => a < b) ∧
      (∀ e ∈ t.table, keyD e (colIndex t column) ∈ ks) ∧
      (∀ k ∈ ks, ∃ e ∈ t.table, keyD e (colIndex t column) = k) ∧
      t.facet_by column = .ok (ks.map (fun k =>
        { table := t.table.filter (fun e => keyD e (colIndex t column) == k)
          default_columns := t.default_columns
          _columns := []
          deleted_rows := []
          faceted_on := some k
          formatting := t.formatting
          style := []
          options := t.options })) ∧
      (ks.map (fun k => t.table.filter
        (fun e => keyD e (colIndex t column) == k))).flatten.Perm t.table := by
  have hnd0 := nodup_firstOcc (fun c2 => c2.getD (colIndex t column) "")
    (t.table.map Entry.cells)
  have hndks : (List.insertionSort (· ≤ ·)
      (firstOcc (fun c2 => c2.getD (colIndex t column) "")
        (t.table.map Entry.cells))).Nodup :=
    ((List.perm_insertionSort _ _).nodup_iff).mpr hnd0
  have hcov : ∀ e ∈ t.table, keyD e (colIndex t column) ∈
      List.insertionSort (· ≤ ·)
        (firstOcc (fun c2 => c2.getD (colIndex t column) "")
          (t.table.map Entry.cells)) := by
    intro e he
    have hcell : e.cells ∈ t.table.map Entry.cells := List.mem_map_of_mem _ he
    have hks0 : keyD e (colIndex t column) ∈
        firstOcc (fun c2 => c2.getD (colIndex t column) "")
          (t.table.map Entry.cells) :=
      (mem_firstOcc _ _ _).mpr ⟨e.cells, hcell, rfl⟩
    exact (List.mem_insertionSort _).mpr hks0
  refine ⟨_, ?_, hcov, ?_, ?_, ?_⟩
  · have hsorted := List.sorted_insertionSort (α := String) (· ≤ ·)
      (firstOcc (fun c2 => c2.getD (colIndex t column) "")
        (t.table.map Entry.cells))
    exact (hsorted.and hndks).imp (fun h => lt_of_le_of_ne h.1 h.2)
  · intro k hk
    have hk0 := (List.mem_insertionSort _).mp hk
    obtain ⟨c2, hc2, hkey⟩ := (mem_firstOcc _ _ _).mp hk0
    obtain ⟨e, he, rfl⟩ := List.mem_map.mp hc2
    exact ⟨e, he, hkey⟩
  · rw [facet_by_eval t column hwf hc]
    have hms := List.map_insertionSort (fun a b : String => a ≤ b) fstLe
      (fun k => (k, (t.table.map Entry.cells).filter
        (fun c2 => c2.getD (colIndex t column) "" == k)))
      (firstOcc (fun c2 => c2.getD (colIndex t column) "")
        (t.table.map Entry.cells))
      (fun a _ b _ => Iff.rfl)
    rw [← hms, List.map_map]
    apply congrArg
    apply List.map_congr_left
    intro k _
    simp only [Function.comp_apply]
    rw [show ((t.table.map Entry.cells).filter
        (fun c2 => c2.getD (colIndex t column) "" == k)).map Entry.raw =
        t.table.filter (fun e => keyD e (colIndex t column) == k) from
      filter_cells_map_raw t hwf _]
  · exact join_filter_perm (fun e => keyD e (colIndex t column)) _ hndks t.table hcov

/-- The spec scenario 7 table again, for faceting by style. -/
def exT1w : TableFu :=
  { table := [Entry.raw ["Samuel Beckett", "Malone Muert", "120", "Modernism"],
      Entry.raw ["James Joyce", "Ulysses", "644", "Modernism"],
      Entry.raw ["Nicholson Baker", "Mezannine", "150", "Minimalism"],
      Entry.raw ["Vladimir Sorokin", "The Queue", "263", "Satire"]]
    default_columns := ["Author", "Best Book", "Number of Pages", "Style"]
    _columns := []
    deleted_rows := []
    faceted_on := Option.none
    formatting := []
    style := []
    options := ⟨Option.none, [], [], Option.none⟩ }

theorem facet_by_partitions_all_rows_witness :
    exT1w.wellFormed ∧ "Style" ∈ exT1w.default_columns ∧
    (∃ ks : List String,
      ks.Pairwise (fun a b => a < b) ∧
      (∀ e ∈ exT1w.table, keyD e (colIndex exT1w "Style") ∈ ks) ∧
      (∀ k ∈ ks, ∃ e ∈ exT1w.table, keyD e (colIndex exT1w "Style") = k) ∧
      exT1w.facet_by "Style" = .ok (ks.map (fun k =>
        { table := exT1w.table.filter (fun e => keyD e (colIndex exT1w "Style") == k)
          default_columns := exT1w.default_columns
          _columns := []
          deleted_rows := []
          faceted_on := some k
          formatting := exT1w.formatting
          style := []
          options := exT1w.options })) ∧
      (ks.map (fun k => exT1w.table.filter
        (fun e => keyD e (colIndex exT1w "Style") == k))).flatten.Perm exT1w.table) :=
  ⟨by decide, by decide,
    facet_by_partitions_all_rows exT1w "Style" (by decide) (by decide)⟩
